import Mathlib

/-!
Verification development for the `expressions` package: an algebraic
expression tree with a precedence-aware renderer, operator-overloading
combinators, a memoized explicit-stack postorder traversal, and a
per-kind symbolic differentiation engine.

The Lean definitions below are a shallow embedding of
`src/expressions/expressions.py`.  Python values that can appear as a
terminal payload or as a raw literal are modelled by `PyVal` (the claims
only exercise integers and strings); Python exceptions are modelled by
the `PyErr` sum carried in `Except`.  Expression trees are the inductive
`Expr`; the traversal engine, whose semantics depends on object identity
and shared references, is modelled separately further below over an
explicit node store addressed by numeric identifiers.
-/

/-- Model of the Python values relevant here: `int` and `str` payloads.
`isinstance(v, (int, float, complex))` becomes `isNumeric`,
`isinstance(v, str)` becomes `isText`. -/
inductive PyVal where
  | int (n : Int)
  | str (s : String)
deriving DecidableEq, Repr

/-- Truth of `isinstance(value, (int, float, complex))` on the modelled values. -/
def PyVal.isNumeric : PyVal → Bool
  | .int _ => true
  | .str _ => false

/-- Truth of `isinstance(value, str)` on the modelled values. -/
def PyVal.isText : PyVal → Bool
  | .int _ => false
  | .str _ => true

/-- Python `str(value)` on the modelled values. -/
def PyVal.toStr : PyVal → String
  | .int n => toString n
  | .str s => s

/-- The concrete Operator classes of the source, plus `opBase` for a bare
`Operator` instance (instantiable in Python, `symbol = None`,
`precedence = 0`). -/
inductive OpKind where
  | add
  | sub
  | mul
  | div
  | pow
  | opBase
deriving DecidableEq, Repr

/-- The class attribute `symbol` of each operator class; a bare Operator
has `symbol = None`, which Python string formatting renders as `None`. -/
def OpKind.sym : OpKind → String
  | .add => "+"
  | .sub => "-"
  | .mul => "*"
  | .div => "/"
  | .pow => "^"
  | .opBase => "None"

/-- The class attribute `precedence` of each operator class
(`Operator.precedence = 0` is the default for a bare Operator). -/
def OpKind.prec : OpKind → Nat
  | .add => 1
  | .sub => 1
  | .mul => 2
  | .div => 2
  | .pow => 3
  | .opBase => 0

/-- Expression nodes: `number` and `symbol` are the validated Terminal
subclasses, `terminal` is a bare `Terminal` instance (constructible in
Python with any payload and no validation), and `op k ops` is an
Operator node of class `k` with its ordered operand sequence. -/
inductive Expr where
  | number (v : PyVal)
  | symbol (v : PyVal)
  | terminal (v : PyVal)
  | op (k : OpKind) (ops : List Expr)
deriving Repr

/-- Truth of `isinstance(e, Number)`. -/
def Expr.isNum : Expr → Bool
  | .number _ => true
  | _ => false

/-- Truth of `isinstance(e, Operator)`. -/
def Expr.isOperator : Expr → Bool
  | .op _ _ => true
  | _ => false

/-- The `precedence` attribute of an Operator node; only ever compared
under an `isOperator` guard, mirroring the isinstance guard in the
renderer, so the value returned for non-operator nodes is irrelevant. -/
def Expr.opPrec : Expr → Nat
  | .op k _ => OpKind.prec k
  | _ => 0

/-- The Python class name of a node, as `type(expr).__name__` would
produce it. -/
def Expr.kindName : Expr → String
  | .number _ => "Number"
  | .symbol _ => "Symbol"
  | .terminal _ => "Terminal"
  | .op .add _ => "Add"
  | .op .sub _ => "Sub"
  | .op .mul _ => "Mul"
  | .op .div _ => "Div"
  | .op .pow _ => "Pow"
  | .op .opBase _ => "Operator"

/-- Python `sep.join(parts)`: parts interleaved with the separator. -/
def pyJoin (sep : String) : List String → String
  | [] => ""
  | [x] => x
  | x :: xs => x ++ sep ++ pyJoin sep xs

/-- Renderer, translated from `Operator.__str__`, `Terminal.__str__` and
the override `Mul.__str__`.  A general operator joins the operand
renderings with its symbol, wrapping an operand in parentheses exactly
when it is an Operator of strictly smaller precedence.  `Mul.__str__`
instead lists all `Number` operands first, then the remaining operands,
joining with `" * "` and never adding parentheses. -/
def exprStr : Expr → String
  | .number v => PyVal.toStr v
  | .symbol v => PyVal.toStr v
  | .terminal v => PyVal.toStr v
  | .op k ops =>
      if k = OpKind.mul then
        pyJoin (" * ")
          (((ops.filter Expr.isNum ++ ops.filter (fun o => ! Expr.isNum o)).attach).map
            (fun o => exprStr o.1))
      else
        pyJoin (" " ++ OpKind.sym k ++ " ")
          ((ops.attach).map (fun o =>
            if Expr.isOperator o.1 = true ∧ Expr.opPrec o.1 < OpKind.prec k then
              "(" ++ exprStr o.1 ++ ")"
            else
              exprStr o.1))
termination_by e => sizeOf e
decreasing_by
  · rcases List.mem_append.mp o.2 with h | h <;>
      (have h2 := List.sizeOf_lt_of_mem (List.mem_filter.mp h).1
       simp only [Expr.op.sizeOf_spec]
       omega)
  · have h2 := List.sizeOf_lt_of_mem o.2
    simp only [Expr.op.sizeOf_spec]
    omega
  · have h2 := List.sizeOf_lt_of_mem o.2
    simp only [Expr.op.sizeOf_spec]
    omega

/-- The per-operand step of `Operator.__str__`: render the operand and
wrap it in parentheses exactly when it is an Operator whose precedence is
strictly smaller than the parent precedence `p`. -/
def renderOperand (p : Nat) (o : Expr) : String :=
  if Expr.isOperator o = true ∧ Expr.opPrec o < p then
    "(" ++ exprStr o ++ ")"
  else
    exprStr o

/-- Python exceptions that the modelled code can raise.  `typeError` and
`notImplemented` are distinct constructors so that statements can
discriminate which exception kind a call produces.  `attributeError o a`
models the AttributeError raised when attribute `a` is looked up on
object `o` and is absent. -/
inductive PyErr where
  | valueError (msg : String)
  | typeError (msg : String)
  | notImplemented (msg : String)
  | attributeError (obj : String) (attr : String)
deriving DecidableEq, Repr

/-- Translation of `Operator.__init__`: fewer than one operand raises
`ValueError("Operators must have at least one operand")`. -/
def mkOperator (k : OpKind) (ops : List Expr) : Except PyErr Expr :=
  if ops.length < 1 then
    .error (.valueError ("Operators must have at least one operand"))
  else
    .ok (Expr.op k ops)

/-- Translation of `Number.__init__`: a non-numeric value raises
`ValueError("Number value must be numeric")`. -/
def mkNumber (v : PyVal) : Except PyErr Expr :=
  if PyVal.isNumeric v then
    .ok (Expr.number v)
  else
    .error (.valueError ("Number value must be numeric"))

/-- Translation of `Symbol.__init__`: a non-string value raises
`ValueError("Symbol value must be a string")`. -/
def mkSymbol (v : PyVal) : Except PyErr Expr :=
  if PyVal.isText v then
    .ok (Expr.symbol v)
  else
    .error (.valueError ("Symbol value must be a string"))

/-- The `other` argument of a combinator dunder method: either an
Expression or a raw value. -/
inductive Operand where
  | expr (e : Expr)
  | lit (v : PyVal)

/-- The coercion step shared by every dunder method:
`if not isinstance(other, Expression): other = Number(other)`. -/
def wrapOperand : Operand → Except PyErr Expr
  | .expr e => .ok e
  | .lit v => mkNumber v

/-- Translation of `Expression.__add__`. -/
def dunderAdd (self : Expr) (other : Operand) : Except PyErr Expr :=
  match wrapOperand other with
  | .error e => .error e
  | .ok o => mkOperator OpKind.add [self, o]

/-- Translation of `Expression.__sub__`. -/
def dunderSub (self : Expr) (other : Operand) : Except PyErr Expr :=
  match wrapOperand other with
  | .error e => .error e
  | .ok o => mkOperator OpKind.sub [self, o]

/-- Translation of `Expression.__mul__`. -/
def dunderMul (self : Expr) (other : Operand) : Except PyErr Expr :=
  match wrapOperand other with
  | .error e => .error e
  | .ok o => mkOperator OpKind.mul [self, o]

/-- Translation of `Expression.__truediv__`. -/
def dunderDiv (self : Expr) (other : Operand) : Except PyErr Expr :=
  match wrapOperand other with
  | .error e => .error e
  | .ok o => mkOperator OpKind.div [self, o]

/-- Translation of `Expression.__pow__`. -/
def dunderPow (self : Expr) (other : Operand) : Except PyErr Expr :=
  match wrapOperand other with
  | .error e => .error e
  | .ok o => mkOperator OpKind.pow [self, o]

/-- Translation of `Expression.__radd__`, which delegates to `__add__`. -/
def dunderRadd (self : Expr) (other : Operand) : Except PyErr Expr :=
  dunderAdd self other

/-- Translation of `Expression.__rsub__`: wraps the reflected operand
and builds `Sub(other, self)` in that order. -/
def dunderRsub (self : Expr) (other : Operand) : Except PyErr Expr :=
  match wrapOperand other with
  | .error e => .error e
  | .ok o => mkOperator OpKind.sub [o, self]

/-- Translation of `Expression.__rmul__`, which delegates to `__mul__`. -/
def dunderRmul (self : Expr) (other : Operand) : Except PyErr Expr :=
  dunderMul self other

/-- Translation of `Expression.__rtruediv__`: builds `Div(other, self)`. -/
def dunderRdiv (self : Expr) (other : Operand) : Except PyErr Expr :=
  match wrapOperand other with
  | .error e => .error e
  | .ok o => mkOperator OpKind.div [o, self]

/-- Translation of `Expression.__rpow__`: builds `Pow(other, self)`. -/
def dunderRpow (self : Expr) (other : Operand) : Except PyErr Expr :=
  match wrapOperand other with
  | .error e => .error e
  | .ok o => mkOperator OpKind.pow [o, self]

/-- Left-to-right evaluation of a list comprehension whose body can
raise: the first exception raised while producing the items propagates
and discards the partial list. -/
def seqExc {ε α β : Type} (f : α → Except ε β) : List α → Except ε (List β)
  | [] => .ok []
  | a :: l =>
      match f a with
      | .error e => .error e
      | .ok b =>
          match seqExc f l with
          | .error e => .error e
          | .ok bs => .ok (b :: bs)

/-- Message of the ValueError raised by Python tuple unpacking
`f, g = operands` when the sequence does not have exactly two items. -/
def unpackErr (n : Nat) : String :=
  if n < 2 then
    "not enough values to unpack (expected 2, got " ++ toString n ++ ")"
  else
    "too many values to unpack (expected 2)"

/-- Translation of the `differentiate` single-dispatch rule table.
Dispatch is on the node constructor, mirroring dispatch on the runtime
class.  Sub, bare Operator and bare Terminal have no registered rule, so
they fall through to the default implementation, whose message
formatting evaluates `type(expr)._name_`; classes have no attribute
named `_name_` (the correct spelling has double underscores), so that
lookup itself raises an AttributeError before the intended
NotImplementedError can be constructed.  The Mul, Div and Pow rules
destructure exactly two operands, so any other operand count raises the
tuple-unpacking ValueError. -/
def differentiate : Expr → String → Except PyErr Expr
  | .number _, _ => .ok (Expr.number (PyVal.int 0))
  | .symbol v, var =>
      if v = PyVal.str var then
        .ok (Expr.number (PyVal.int 1))
      else
        .ok (Expr.number (PyVal.int 0))
  | .op .add ops, var =>
      match seqExc (fun o => differentiate o.1 var) (ops.attach) with
      | .error e => .error e
      | .ok ds => mkOperator OpKind.add ds
  | .op .mul [f, g], var =>
      match differentiate f var with
      | .error e => .error e
      | .ok df =>
          match differentiate g var with
          | .error e => .error e
          | .ok dg => .ok (Expr.op .add [Expr.op .mul [df, g], Expr.op .mul [dg, f]])
  | .op .mul ops, _ => .error (.valueError (unpackErr ops.length))
  | .op .div [f, g], var =>
      match differentiate f var with
      | .error e => .error e
      | .ok df =>
          match differentiate g var with
          | .error e => .error e
          | .ok dg =>
              .ok (Expr.op .div
                [Expr.op .sub [Expr.op .mul [df, g], Expr.op .mul [dg, f]],
                 Expr.op .pow [g, Expr.number (PyVal.int 2)]])
  | .op .div ops, _ => .error (.valueError (unpackErr ops.length))
  | .op .pow [base, expo], var =>
      if Expr.isNum expo then
        match differentiate base var with
        | .error e => .error e
        | .ok db =>
            .ok (Expr.op .mul
              [Expr.op .mul [expo, Expr.op .pow [base, Expr.op .sub [expo, Expr.number (PyVal.int 1)]]],
               db])
      else
        .error (.notImplemented ("Variable exponents are not yet supported."))
  | .op .pow ops, _ => .error (.valueError (unpackErr ops.length))
  | e, _ => .error (.attributeError (Expr.kindName e) ("_name_"))
termination_by e _ => sizeOf e
decreasing_by
  all_goals first
  | (have h2 := List.sizeOf_lt_of_mem o.2
     simp only [Expr.op.sizeOf_spec]
     omega)
  | (simp only [Expr.op.sizeOf_spec, List.cons.sizeOf_spec, List.nil.sizeOf_spec]
     omega)

/-!
Model of `postvisitor`.  The Python function memoizes on object
identity: the dictionary `visited` hashes nodes by reference, so two
structurally identical but distinct instances get separate entries while
one shared instance is evaluated once.  The embedding therefore works
over an operand graph `g : Nat → List Nat` on numeric node identifiers:
`g n` is the identifier list of the operands of node `n`.  Nodes in
Python are immutable and built bottom-up, so every reference cycle is
impossible and the identifiers can be (and, for creation order, are)
chosen so that operands have strictly smaller identifiers; that
numbering is the acyclicity hypothesis of the soundness theorem.  The
`while` loop becomes a fuel-indexed step function; `none` means the fuel
ran out or a lookup failed, which the soundness theorem rules out.  The
visitor function is `fn : Nat → List α → α` (node identifier and operand
results; extra keyword context can be closed over in `fn`), and the loop
additionally records, in order, the list of nodes on which `fn` was
invoked, so that invocation counts are observable. -/

/-- Left-to-right evaluation of `tuple(f(c) for c in l)` where each item
can be absent: the first absent item makes the whole tuple absent. -/
def seqOpts {α β : Type} (f : α → Option β) : List α → Option (List β)
  | [] => some []
  | a :: l =>
      match f a with
      | none => none
      | some b =>
          match seqOpts f l with
          | none => none
          | some bs => some (b :: bs)

/-- Lookup in the memo dictionary, keyed by node identifier. -/
def mfind {α : Type} : List (Nat × α) → Nat → Option α
  | [], _ => none
  | (m, a) :: rest, n => if m = n then some a else mfind rest n

/-- One-loop-per-fuel-unit translation of the `while stack:` loop of
`postvisitor`.  The stack head is the top.  Popping an already-visited
node skips it; popping a processed node evaluates `fn` on the memoized
operand results; popping an unprocessed node pushes its not-yet-visited
operands (in order, so they are handled left to right) above its
processed entry. -/
def postLoop {α : Type} (g : Nat → List Nat) (fn : Nat → List α → α) :
    Nat → List (Nat × Bool) → List (Nat × α) → List Nat →
    Option (List (Nat × α) × List Nat)
  | 0, _, _, _ => none
  | _ + 1, [], visited, calls => some (visited, calls)
  | fuel + 1, (n, processed) :: rest, visited, calls =>
      match mfind visited n with
      | some _ => postLoop g fn fuel rest visited calls
      | none =>
          if processed then
            match seqOpts (mfind visited) (g n) with
            | none => none
            | some rs =>
                postLoop g fn fuel rest ((n, fn n rs) :: visited) (calls ++ [n])
          else
            postLoop g fn fuel
              (((g n).filter (fun c => (mfind visited c).isNone)).map (fun c => (c, false))
                ++ (n, true) :: rest)
              visited calls

/-- Translation of `postvisitor(expr, fn, **kwargs)`: run the loop from
a stack holding the root unprocessed, then return `visited[expr]`
together with the recorded `fn` invocation list. -/
def postvisitor {α : Type} (g : Nat → List Nat) (fn : Nat → List α → α)
    (fuel : Nat) (root : Nat) : Option (α × List Nat) :=
  match postLoop g fn fuel [(root, false)] [] [] with
  | none => none
  | some (visited, calls) =>
      match mfind visited root with
      | none => none
      | some r => some (r, calls)

/-- Reference bottom-up evaluation of a node of the operand graph,
indexed by fuel; with fuel larger than the node identifier it is total
on graphs whose operands have smaller identifiers. -/
def evalB {α : Type} (g : Nat → List Nat) (fn : Nat → List α → α) :
    Nat → Nat → Option α
  | 0, _ => none
  | fuel + 1, n =>
      match seqOpts (evalB g fn fuel) (g n) with
      | none => none
      | some rs => some (fn n rs)

/-- Fuel-indexed weight of a node: an upper bound for the number of loop
iterations its subgraph can cause. -/
def Wb (g : Nat → List Nat) : Nat → Nat → Nat
  | 0, _ => 1
  | fuel + 1, n => 2 + ((g n).map (Wb g fuel)).sum

/-- Stable weight of a node under the small-operand numbering. -/
def Wdef (g : Nat → List Nat) (n : Nat) : Nat :=
  Wb g (n + 1) n

/-- Remaining-work measure of a loop stack: processed entries count one,
unprocessed entries count their node weight. -/
def phi (g : Nat → List Nat) (stack : List (Nat × Bool)) : Nat :=
  (stack.map (fun p => if p.2 then 1 else Wdef g p.1)).sum

/-- Reachability along operand edges from `n`. -/
inductive Reach (g : Nat → List Nat) : Nat → Nat → Prop
  | refl (n : Nat) : Reach g n n
  | tail {n m c : Nat} : Reach g n m → c ∈ g m → Reach g n c

/-- Stack well-formedness for processed entries: whenever `(n, true)`
sits on the stack, every operand of `n` is already memoized or occurs in
a stack entry strictly above it (the accumulator `above` collects the
node names of the entries already passed). -/
def TrueOk {α : Type} (g : Nat → List Nat) (visited : List (Nat × α)) :
    List Nat → List (Nat × Bool) → Prop
  | _, [] => True
  | above, (n, b) :: rest =>
      (b = true → ∀ c ∈ g n, (mfind visited c).isSome = true ∨ c ∈ above) ∧
      TrueOk g visited (n :: above) rest

/-- Loop invariant tying the stack, the memo dictionary and the
recorded invocation list to the operand graph. -/
structure LoopInv {α : Type} (g : Nat → List Nat) (fn : Nat → List α → α) (root : Nat)
    (stack : List (Nat × Bool)) (visited : List (Nat × α)) (calls : List Nat) : Prop where
  hvis : ∀ n v, mfind visited n = some v → evalB g fn (n + 1) n = some v
  hclosed : ∀ n, (mfind visited n).isSome = true →
    ∀ c ∈ g n, (mfind visited c).isSome = true
  hreachS : ∀ p ∈ stack, Reach g root p.1
  hreachV : ∀ n, (mfind visited n).isSome = true → Reach g root n
  hcover : ∀ m, Reach g root m →
    (mfind visited m).isSome = true ∨ ∃ p ∈ stack, Reach g p.1 m
  htrue : TrueOk g visited [] stack
  hnd : calls.Nodup
  hcv : ∀ n, n ∈ calls ↔ (mfind visited n).isSome = true

/-- Operand graph of `shared = Symbol("x"); e = Add(shared, shared)`:
node 0 is the shared Symbol instance, node 1 the Add node referencing
node 0 twice. -/
def gShared : Nat → List Nat := fun n => if n = 1 then [0, 0] else []

/-- Operand graph of `e = Add(Symbol("x"), Symbol("x"))` with two
structurally identical but distinct Symbol instances: nodes 0 and 1 are
the two Symbol objects, node 2 the Add node referencing both. -/
def gTwin : Nat → List Nat := fun n => if n = 2 then [0, 1] else []

/-- A visitor whose value records nothing interesting; invocation counts
are read off the recorded invocation list. -/
def cntFn : Nat → List Nat → Nat := fun _ rs => rs.sum + 1

/-- The node `Symbol("x")`. -/
def exSymX : Expr := Expr.symbol (PyVal.str ("x"))

/-- The node `Symbol("y")`. -/
def exSymY : Expr := Expr.symbol (PyVal.str ("y"))

/-- The node `Add(Symbol("x"), Symbol("y"))`. -/
def exAddXY : Expr := Expr.op OpKind.add [exSymX, exSymY]

/-- The node `Mul(Add(Symbol("x"), Symbol("y")), Number(2))` of the
rendering-precedence example. -/
def exC1 : Expr := Expr.op OpKind.mul [exAddXY, Expr.number (PyVal.int 2)]

/-- The node `Pow(Symbol("x"), Number(3))`. -/
def exPowX3 : Expr := Expr.op OpKind.pow [exSymX, Expr.number (PyVal.int 3)]

/-- What the source actually returns for `d(x^3)/dx`: the exponent of
the inner Pow is the unsimplified `Sub(Number(3), Number(1))`. -/
def exC3Actual : Expr :=
  Expr.op OpKind.mul
    [Expr.op OpKind.mul
      [Expr.number (PyVal.int 3),
       Expr.op OpKind.pow
         [exSymX, Expr.op OpKind.sub [Expr.number (PyVal.int 3), Expr.number (PyVal.int 1)]]],
     Expr.number (PyVal.int 1)]

/-- What the claim asserts for `d(x^3)/dx`: the inner Pow exponent is
the simplified `Number(2)`. -/
def exC3Claimed : Expr :=
  Expr.op OpKind.mul
    [Expr.op OpKind.mul
      [Expr.number (PyVal.int 3), Expr.op OpKind.pow [exSymX, Expr.number (PyVal.int 2)]],
     Expr.number (PyVal.int 1)]

theorem attachMap_eq {α β : Type} (l : List α) (f : α → β) :
    (l.attach).map (fun x => f x.1) = l.map f := by
  simp

theorem exprStr_op_ne_mul (k : OpKind) (ops : List Expr) (hk : k ≠ OpKind.mul) :
    exprStr (Expr.op k ops)
      = pyJoin (" " ++ OpKind.sym k ++ " ") (ops.map (renderOperand (OpKind.prec k))) := by
  rw [exprStr, if_neg hk,
    attachMap_eq ops (fun o =>
      if Expr.isOperator o = true ∧ Expr.opPrec o < OpKind.prec k then
        "(" ++ exprStr o ++ ")"
      else
        exprStr o)]
  rfl

theorem exprStr_mul (ops : List Expr) :
    exprStr (Expr.op OpKind.mul ops)
      = pyJoin (" * ")
          ((ops.filter Expr.isNum ++ ops.filter (fun o => ! Expr.isNum o)).map exprStr) := by
  rw [exprStr, if_pos rfl]
  rw [attachMap_eq _ exprStr]

theorem mfind_cons {α : Type} (m : Nat) (a : α) (v : List (Nat × α)) (n : Nat) :
    mfind ((m, a) :: v) n = if m = n then some a else mfind v n := rfl

theorem mfind_cons_isSome {α : Type} (m : Nat) (a : α) (v : List (Nat × α)) (n : Nat) :
    (mfind ((m, a) :: v) n).isSome = true ↔ m = n ∨ (mfind v n).isSome = true := by
  rw [mfind_cons]
  by_cases h : m = n <;> simp [h]

theorem mfind_extend_some {α : Type} {v : List (Nat × α)} {n m : Nat} {a : α} {x : α}
    (hn : mfind v n = none) (hm : mfind v m = some x) :
    mfind ((n, a) :: v) m = some x := by
  rw [mfind_cons]
  rcases eq_or_ne n m with h | h
  · rw [h] at hn
    rw [hn] at hm
    cases hm
  · rw [if_neg h]
    exact hm

theorem mfind_extend_isSome {α : Type} {v : List (Nat × α)} {n m : Nat} (a : α)
    (hm : (mfind v m).isSome = true) :
    (mfind ((n, a) :: v) m).isSome = true := by
  rw [mfind_cons_isSome]
  exact Or.inr hm

theorem seqOpts_isSome_of_forall {α β : Type} (f : α → Option β) :
    ∀ l : List α, (∀ a ∈ l, (f a).isSome = true) → (seqOpts f l).isSome = true
  | [], _ => by simp [seqOpts]
  | a :: l, h => by
    obtain ⟨x, hx⟩ := Option.isSome_iff_exists.mp (h a (List.mem_cons_self a l))
    have ih := seqOpts_isSome_of_forall f l (fun b hb => h b (List.mem_cons_of_mem a hb))
    obtain ⟨xs, hxs⟩ := Option.isSome_iff_exists.mp ih
    simp [seqOpts, hx, hxs]

theorem seqOpts_switch {α β : Type} (f f' : α → Option β) :
    ∀ (l : List α) (rs : List β),
      (∀ a ∈ l, ∀ x, f a = some x → f' a = some x) →
      seqOpts f l = some rs → seqOpts f' l = some rs
  | [], rs, _, h => by simpa [seqOpts] using h
  | a :: l, rs, hpt, h => by
    rw [seqOpts] at h
    cases hfa : f a with
    | none => rw [hfa] at h; simp at h
    | some x =>
        rw [hfa] at h
        cases hfl : seqOpts f l with
        | none => rw [hfl] at h; simp at h
        | some xs =>
            rw [hfl] at h
            simp only at h
            have ih := seqOpts_switch f f' l xs
              (fun b hb => hpt b (List.mem_cons_of_mem a hb)) hfl
            have ha := hpt a (List.mem_cons_self a l) x hfa
            rw [seqOpts, ha, ih]
            exact h

theorem seqOpts_congr {α β : Type} (f f' : α → Option β) :
    ∀ l : List α, (∀ a ∈ l, f a = f' a) → seqOpts f l = seqOpts f' l
  | [], _ => rfl
  | a :: l, h => by
    have ih := seqOpts_congr f f' l (fun b hb => h b (List.mem_cons_of_mem a hb))
    rw [seqOpts, seqOpts, h a (List.mem_cons_self a l), ih]

theorem evalB_stable {α : Type} (g : Nat → List Nat) (fn : Nat → List α → α)
    (hwf : ∀ n, ∀ c ∈ g n, c < n) :
    ∀ n f1 f2, n < f1 → n < f2 → evalB g fn f1 n = evalB g fn f2 n := by
  intro n
  induction n using Nat.strong_induction_on with
  | _ n ih =>
      intro f1 f2 h1 h2
      match f1, f2 with
      | k1 + 1, k2 + 1 =>
          have hmap : seqOpts (evalB g fn k1) (g n) = seqOpts (evalB g fn k2) (g n) := by
            apply seqOpts_congr
            intro c hc
            have hcn := hwf n c hc
            exact ih c hcn k1 k2 (by omega) (by omega)
          rw [evalB, evalB, hmap]

theorem evalB_total {α : Type} (g : Nat → List Nat) (fn : Nat → List α → α)
    (hwf : ∀ n, ∀ c ∈ g n, c < n) :
    ∀ n, (evalB g fn (n + 1) n).isSome = true := by
  intro n
  induction n using Nat.strong_induction_on with
  | _ n ih =>
      rw [evalB]
      have hmap : (seqOpts (evalB g fn n) (g n)).isSome = true := by
        apply seqOpts_isSome_of_forall
        intro c hc
        have hcn := hwf n c hc
        rw [evalB_stable g fn hwf c n (c + 1) hcn (by omega)]
        exact ih c hcn
      obtain ⟨rs, hrs⟩ := Option.isSome_iff_exists.mp hmap
      rw [hrs]
      rfl

theorem Wb_stable (g : Nat → List Nat) (hwf : ∀ n, ∀ c ∈ g n, c < n) :
    ∀ n f1 f2, n < f1 → n < f2 → Wb g f1 n = Wb g f2 n := by
  intro n
  induction n using Nat.strong_induction_on with
  | _ n ih =>
      intro f1 f2 h1 h2
      match f1, f2 with
      | k1 + 1, k2 + 1 =>
          rw [Wb, Wb]
          have hmap : (g n).map (Wb g k1) = (g n).map (Wb g k2) := by
            apply List.map_congr_left
            intro c hc
            have hcn := hwf n c hc
            exact ih c hcn k1 k2 (by omega) (by omega)
          rw [hmap]

theorem Wdef_eq (g : Nat → List Nat) (hwf : ∀ n, ∀ c ∈ g n, c < n) (n : Nat) :
    Wdef g n = 2 + ((g n).map (Wdef g)).sum := by
  rw [Wdef, Wb]
  have h : (g n).map (Wb g n) = (g n).map (Wdef g) := by
    apply List.map_congr_left
    intro c hc
    have hcn := hwf n c hc
    exact Wb_stable g hwf c n (c + 1) hcn (by omega)
  rw [h]

theorem Wdef_pos (g : Nat → List Nat) (n : Nat) : 1 ≤ Wdef g n := by
  rw [Wdef, Wb]
  omega

theorem Wdef_child_lt (g : Nat → List Nat) (hwf : ∀ n, ∀ c ∈ g n, c < n)
    {n c : Nat} (hc : c ∈ g n) : Wdef g c < Wdef g n := by
  rw [Wdef_eq g hwf n]
  have hmem : Wdef g c ∈ (g n).map (Wdef g) := List.mem_map_of_mem (Wdef g) hc
  have hle : Wdef g c ≤ ((g n).map (Wdef g)).sum :=
    List.single_le_sum (fun x _ => Nat.zero_le x) _ hmem
  omega

theorem sum_map_filter_le (W : Nat → Nat) (p : Nat → Bool) (l : List Nat) :
    ((l.filter p).map W).sum ≤ (l.map W).sum := by
  induction l with
  | nil => simp
  | cons a l ih =>
      cases hpa : p a <;> simp [List.filter_cons, hpa] <;> omega

theorem phi_cons (g : Nat → List Nat) (n : Nat) (b : Bool) (rest : List (Nat × Bool)) :
    phi g ((n, b) :: rest) = (if b then 1 else Wdef g n) + phi g rest := by
  simp [phi]

theorem phi_push (g : Nat → List Nat) (kids : List Nat) (n : Nat)
    (rest : List (Nat × Bool)) :
    phi g (kids.map (fun c => (c, false)) ++ (n, true) :: rest)
      = (kids.map (Wdef g)).sum + 1 + phi g rest := by
  simp only [phi, List.map_append, List.sum_append, List.map_map, List.map_cons,
    List.sum_cons]
  have h : List.map ((fun p : Nat × Bool => if p.2 then 1 else Wdef g p.1)
      ∘ fun c => (c, false)) kids = kids.map (Wdef g) := by
    apply List.map_congr_left
    intro c _
    simp [Function.comp]
  rw [h]
  simp only [if_true]
  omega

theorem Reach.trans {g : Nat → List Nat} {a b c : Nat}
    (h1 : Reach g a b) (h2 : Reach g b c) : Reach g a c := by
  induction h2 with
  | refl => exact h1
  | tail _ hc ih => exact Reach.tail ih hc

theorem Reach.head_cases {g : Nat → List Nat} {n m : Nat} (h : Reach g n m) :
    n = m ∨ ∃ c ∈ g n, Reach g c m := by
  induction h with
  | refl => exact Or.inl rfl
  | tail _ hc ih =>
      rcases ih with h1 | ⟨d, hd, hdm⟩
      · subst h1
        exact Or.inr ⟨_, hc, Reach.refl _⟩
      · exact Or.inr ⟨d, hd, Reach.tail hdm hc⟩

theorem reach_closed {α : Type} {g : Nat → List Nat} {visited : List (Nat × α)}
    (hclosed : ∀ n, (mfind visited n).isSome = true →
      ∀ c ∈ g n, (mfind visited c).isSome = true)
    {n m : Nat} (hn : (mfind visited n).isSome = true) (h : Reach g n m) :
    (mfind visited m).isSome = true := by
  induction h with
  | refl => exact hn
  | tail _ hc ih => exact hclosed _ ih _ hc

theorem TrueOk_mono {α : Type} (g : Nat → List Nat)
    (v v' : List (Nat × α)) :
    ∀ (s : List (Nat × Bool)) (ab ab' : List Nat),
      (∀ c, c ∈ ab → c ∈ ab' ∨ (mfind v' c).isSome = true) →
      (∀ c, (mfind v c).isSome = true → (mfind v' c).isSome = true) →
      TrueOk g v ab s → TrueOk g v' ab' s
  | [], _, _, _, _, _ => trivial
  | (n, b) :: rest, ab, ab', hab, hv, h => by
    obtain ⟨h1, h2⟩ := h
    refine ⟨?_, ?_⟩
    · intro hb c hc
      rcases h1 hb c hc with hs | hmem
      · exact Or.inl (hv c hs)
      · rcases hab c hmem with h' | h'
        · exact Or.inr h'
        · exact Or.inl h'
    · apply TrueOk_mono g v v' rest (n :: ab) (n :: ab')
      · intro c hc
        rcases List.mem_cons.mp hc with h' | h'
        · exact Or.inl (by rw [h']; exact List.mem_cons_self n ab')
        · rcases hab c h' with h'' | h''
          · exact Or.inl (List.mem_cons_of_mem n h'')
          · exact Or.inr h''
      · exact hv
      · exact h2

theorem TrueOk_falseKids {α : Type} (g : Nat → List Nat) (v : List (Nat × α)) :
    ∀ (ks : List Nat) (ab : List Nat) (tail : List (Nat × Bool)),
      TrueOk g v (ks.reverse ++ ab) tail →
      TrueOk g v ab (ks.map (fun c => (c, false)) ++ tail)
  | [], ab, tail, h => by simpa using h
  | k :: ks, ab, tail, h => by
    refine ⟨?_, ?_⟩
    · intro hb
      cases hb
    · apply TrueOk_falseKids g v ks (k :: ab) tail
      apply TrueOk_mono g v v tail (ks.reverse ++ [k] ++ ab) (ks.reverse ++ k :: ab)
      · intro c hc
        left
        simp only [List.append_assoc, List.mem_append, List.mem_cons] at hc ⊢
        tauto
      · intro c hc
        exact hc
      · simpa using h

/-- Soundness of the memoized traversal loop: starting from any state
satisfying the invariant with enough fuel, the loop terminates, the memo
stays correct with respect to the reference evaluation, the recorded
invocation list has no duplicates and covers exactly the nodes reachable
from the root, and the root ends up memoized. -/
theorem postLoop_sound {α : Type} (g : Nat → List Nat) (fn : Nat → List α → α) (root : Nat)
    (hwf : ∀ n, ∀ c ∈ g n, c < n) :
    ∀ (fuel : Nat) (stack : List (Nat × Bool)) (visited : List (Nat × α)) (calls : List Nat),
      phi g stack < fuel →
      LoopInv g fn root stack visited calls →
      ∃ visited' calls',
        postLoop g fn fuel stack visited calls = some (visited', calls') ∧
        (∀ n v, mfind visited' n = some v → evalB g fn (n + 1) n = some v) ∧
        calls'.Nodup ∧
        (∀ m, m ∈ calls' ↔ Reach g root m) ∧
        (mfind visited' root).isSome = true := by
  intro fuel
  induction fuel with
  | zero =>
      intro stack visited calls hphi _
      omega
  | succ f ih =>
      intro stack visited calls hphi hinv
      cases stack with
      | nil =>
          refine ⟨visited, calls, rfl, hinv.hvis, hinv.hnd, ?_, ?_⟩
          · intro m
            constructor
            · intro hm
              exact hinv.hreachV m ((hinv.hcv m).mp hm)
            · intro hm
              rcases hinv.hcover m hm with h | ⟨p, hp, _⟩
              · exact (hinv.hcv m).mpr h
              · exact absurd hp (List.not_mem_nil p)
          · rcases hinv.hcover root (Reach.refl root) with h | ⟨p, hp, _⟩
            · exact h
            · exact absurd hp (List.not_mem_nil p)
      | cons head rest =>
          obtain ⟨n, b⟩ := head
          cases hv : mfind visited n with
          | some a =>
              have hstep : postLoop g fn (f + 1) ((n, b) :: rest) visited calls
                  = postLoop g fn f rest visited calls := by
                simp [postLoop, hv]
              have hnsome : (mfind visited n).isSome = true := by
                rw [hv]; rfl
              have hphi' : phi g rest < f := by
                have h1 := phi_cons g n b rest
                have h2 := Wdef_pos g n
                rw [h1] at hphi
                cases b <;> simp at hphi <;> omega
              have hinv' : LoopInv g fn root rest visited calls := by
                refine ⟨hinv.hvis, hinv.hclosed,
                  fun p hp => hinv.hreachS p (List.mem_cons_of_mem _ hp),
                  hinv.hreachV, ?_, ?_, hinv.hnd, hinv.hcv⟩
                · intro m hm
                  rcases hinv.hcover m hm with h | ⟨p, hp, hpm⟩
                  · exact Or.inl h
                  · rcases List.mem_cons.mp hp with h' | h'
                    · subst h'
                      exact Or.inl (reach_closed hinv.hclosed hnsome hpm)
                    · exact Or.inr ⟨p, h', hpm⟩
                · obtain ⟨_, h2⟩ := hinv.htrue
                  apply TrueOk_mono g visited visited rest [n] []
                  · intro c hc
                    have : c = n := by simpa using hc
                    subst this
                    exact Or.inr hnsome
                  · exact fun c hc => hc
                  · exact h2
              obtain ⟨v', c', hrun, h1, h2, h3, h4⟩ := ih rest visited calls hphi' hinv'
              exact ⟨v', c', by rw [hstep]; exact hrun, h1, h2, h3, h4⟩
          | none =>
              cases b with
              | true =>
                  have hops : ∀ c ∈ g n, (mfind visited c).isSome = true := by
                    obtain ⟨h1, _⟩ := hinv.htrue
                    intro c hc
                    rcases h1 rfl c hc with hs | habs
                    · exact hs
                    · exact absurd habs (List.not_mem_nil c)
                  have hsome := seqOpts_isSome_of_forall (mfind visited) (g n) hops
                  obtain ⟨rs, hrs⟩ := Option.isSome_iff_exists.mp hsome
                  have hstep : postLoop g fn (f + 1) ((n, true) :: rest) visited calls
                      = postLoop g fn f rest ((n, fn n rs) :: visited) (calls ++ [n]) := by
                    simp [postLoop, hv, hrs]
                  have hevaln : evalB g fn (n + 1) n = some (fn n rs) := by
                    rw [evalB]
                    have hsw : seqOpts (evalB g fn n) (g n) = some rs := by
                      apply seqOpts_switch (mfind visited) (evalB g fn n) (g n) rs ?_ hrs
                      intro c hc x hx
                      rw [evalB_stable g fn hwf c n (c + 1) (hwf n c hc) (Nat.lt_succ_self c)]
                      exact hinv.hvis c x hx
                    rw [hsw]
                  have hnewsome : (mfind ((n, fn n rs) :: visited) n).isSome = true := by
                    rw [mfind_cons, if_pos rfl]; rfl
                  have hclosed' : ∀ m, (mfind ((n, fn n rs) :: visited) m).isSome = true →
                      ∀ c ∈ g m, (mfind ((n, fn n rs) :: visited) c).isSome = true := by
                    intro m hm c hc
                    rcases (mfind_cons_isSome n (fn n rs) visited m).mp hm with h' | h'
                    · subst h'
                      exact mfind_extend_isSome _ (hops c hc)
                    · exact mfind_extend_isSome _ (hinv.hclosed m h' c hc)
                  have hnnotc : n ∉ calls := by
                    intro hmem
                    have h := (hinv.hcv n).mp hmem
                    rw [hv] at h
                    cases h
                  have hphi' : phi g rest < f := by
                    rw [phi_cons] at hphi
                    simp only [if_true] at hphi
                    omega
                  have hinv' : LoopInv g fn root rest ((n, fn n rs) :: visited) (calls ++ [n]) := by
                    refine ⟨?_, hclosed', fun p hp => hinv.hreachS p (List.mem_cons_of_mem _ hp),
                      ?_, ?_, ?_, ?_, ?_⟩
                    · intro m vv hmv
                      rcases eq_or_ne n m with h' | h'
                      · subst h'
                        rw [mfind_cons, if_pos rfl] at hmv
                        have hinj := Option.some.inj hmv
                        rw [← hinj]
                        exact hevaln
                      · rw [mfind_cons, if_neg h'] at hmv
                        exact hinv.hvis m vv hmv
                    · intro m hm
                      rcases (mfind_cons_isSome n (fn n rs) visited m).mp hm with h' | h'
                      · subst h'
                        exact hinv.hreachS (n, true) (List.mem_cons_self _ _)
                      · exact hinv.hreachV m h'
                    · intro m hm
                      rcases hinv.hcover m hm with h | ⟨p, hp, hpm⟩
                      · exact Or.inl (mfind_extend_isSome _ h)
                      · rcases List.mem_cons.mp hp with h' | h'
                        · subst h'
                          exact Or.inl (reach_closed hclosed' hnewsome hpm)
                        · exact Or.inr ⟨p, h', hpm⟩
                    · obtain ⟨_, h2⟩ := hinv.htrue
                      apply TrueOk_mono g visited ((n, fn n rs) :: visited) rest [n] []
                      · intro c hc
                        have : c = n := by simpa using hc
                        subst this
                        exact Or.inr hnewsome
                      · exact fun c hc => mfind_extend_isSome _ hc
                      · exact h2
                    · rw [List.nodup_append]
                      refine ⟨hinv.hnd, List.nodup_singleton n, ?_⟩
                      intro a ha hb
                      have : a = n := by simpa using hb
                      subst this
                      exact hnnotc ha
                    · intro m
                      rw [List.mem_append, mfind_cons_isSome]
                      constructor
                      · intro h
                        rcases h with h | h
                        · exact Or.inr ((hinv.hcv m).mp h)
                        · have hmn : m = n := by simpa using h
                          exact Or.inl hmn.symm
                      · intro h
                        rcases h with h | h
                        · refine Or.inr ?_
                          simp [h]
                        · exact Or.inl ((hinv.hcv m).mpr h)
                  obtain ⟨v', c', hrun, h1, h2, h3, h4⟩ :=
                    ih rest ((n, fn n rs) :: visited) (calls ++ [n]) hphi' hinv'
                  exact ⟨v', c', by rw [hstep]; exact hrun, h1, h2, h3, h4⟩
              | false =>
                  have hstep : postLoop g fn (f + 1) ((n, false) :: rest) visited calls
                      = postLoop g fn f
                          (((g n).filter (fun c => (mfind visited c).isNone)).map
                              (fun c => (c, false)) ++ (n, true) :: rest)
                          visited calls := by
                    simp [postLoop, hv]
                  have hreachn : Reach g root n :=
                    hinv.hreachS (n, false) (List.mem_cons_self _ _)
                  have hphi' : phi g
                      (((g n).filter (fun c => (mfind visited c).isNone)).map
                          (fun c => (c, false)) ++ (n, true) :: rest) < f := by
                    rw [phi_push]
                    rw [phi_cons] at hphi
                    simp only [Bool.false_eq_true, if_false] at hphi
                    have hle := sum_map_filter_le (Wdef g) (fun c => (mfind visited c).isNone) (g n)
                    have heq := Wdef_eq g hwf n
                    omega
                  have hinv' : LoopInv g fn root
                      (((g n).filter (fun c => (mfind visited c).isNone)).map
                          (fun c => (c, false)) ++ (n, true) :: rest) visited calls := by
                    refine ⟨hinv.hvis, hinv.hclosed, ?_, hinv.hreachV, ?_, ?_, hinv.hnd, hinv.hcv⟩
                    · intro p hp
                      rcases List.mem_append.mp hp with hk | hrest
                      · obtain ⟨c, hck, rfl⟩ := List.mem_map.mp hk
                        exact Reach.tail hreachn (List.mem_filter.mp hck).1
                      · rcases List.mem_cons.mp hrest with h' | h'
                        · subst h'
                          exact hreachn
                        · exact hinv.hreachS p (List.mem_cons_of_mem _ h')
                    · intro m hm
                      rcases hinv.hcover m hm with h | ⟨p, hp, hpm⟩
                      · exact Or.inl h
                      · rcases List.mem_cons.mp hp with h' | h'
                        · subst h'
                          rcases Reach.head_cases hpm with h'' | ⟨c, hc, hcm⟩
                          · subst h''
                            refine Or.inr ⟨(n, true), ?_, Reach.refl n⟩
                            exact List.mem_append_right _ (List.mem_cons_self _ _)
                          · cases hmc : mfind visited c with
                            | some x =>
                                refine Or.inl (reach_closed hinv.hclosed ?_ hcm)
                                simp [hmc]
                            | none =>
                                refine Or.inr ⟨(c, false), ?_, hcm⟩
                                apply List.mem_append_left
                                apply List.mem_map_of_mem
                                rw [List.mem_filter]
                                refine ⟨hc, ?_⟩
                                simp [hmc]
                        · exact Or.inr ⟨p, List.mem_append_right _ (List.mem_cons_of_mem _ h'), hpm⟩
                    · apply TrueOk_falseKids g visited
                        ((g n).filter (fun c => (mfind visited c).isNone)) []
                        ((n, true) :: rest)
                      refine ⟨?_, ?_⟩
                      · intro _ c hc
                        cases hmc : mfind visited c with
                        | some x => exact Or.inl (by simp [hmc])
                        | none =>
                            refine Or.inr ?_
                            apply List.mem_append_left
                            rw [List.mem_reverse, List.mem_filter]
                            refine ⟨hc, ?_⟩
                            simp [hmc]
                      · obtain ⟨_, h2⟩ := hinv.htrue
                        apply TrueOk_mono g visited visited rest [n]
                        · intro c hc
                          have : c = n := by simpa using hc
                          subst this
                          exact Or.inl (List.mem_cons_self _ _)
                        · exact fun c hc => hc
                        · exact h2
                  obtain ⟨v', c', hrun, h1, h2, h3, h4⟩ :=
                    ih _ visited calls hphi' hinv'
                  exact ⟨v', c', by rw [hstep]; exact hrun, h1, h2, h3, h4⟩

/-- End-to-end soundness of `postvisitor` on an operand graph whose
operands carry smaller identifiers (true of every graph of immutable
bottom-up-constructed nodes): with enough fuel the traversal returns,
the invocation list is duplicate-free and consists of exactly the nodes
reachable from the root, and the returned value is the reference
bottom-up evaluation of the root. -/
theorem postvisitor_sound {α : Type} (g : Nat → List Nat) (fn : Nat → List α → α) (root : Nat)
    (hwf : ∀ n, ∀ c ∈ g n, c < n) :
    ∃ fuel r calls,
      postvisitor g fn fuel root = some (r, calls) ∧
      calls.Nodup ∧
      (∀ m, m ∈ calls ↔ Reach g root m) ∧
      evalB g fn (root + 1) root = some r := by
  have hinv : LoopInv g fn root [(root, false)] [] [] := by
    refine ⟨?_, ?_, ?_, ?_, ?_, ?_, List.nodup_nil, ?_⟩
    · intro n v h
      simp [mfind] at h
    · intro n h
      simp [mfind] at h
    · intro p hp
      have hp' : p = (root, false) := by simpa using hp
      rw [hp']
      exact Reach.refl root
    · intro n h
      simp [mfind] at h
    · intro m hm
      exact Or.inr ⟨(root, false), List.mem_cons_self _ _, hm⟩
    · refine ⟨?_, trivial⟩
      intro h
      simp at h
    · intro n
      constructor
      · intro h
        simp at h
      · intro h
        simp [mfind] at h
  have hphi : phi g [(root, false)] < Wdef g root + 1 := by
    simp [phi]
  obtain ⟨v', c', hpl, h1, h2, h3, h4⟩ :=
    postLoop_sound g fn root hwf (Wdef g root + 1) [(root, false)] [] [] hphi hinv
  obtain ⟨r, hr⟩ := Option.isSome_iff_exists.mp h4
  refine ⟨Wdef g root + 1, r, c', ?_, h2, h3, h1 root r hr⟩
  simp [postvisitor, hpl, hr]

theorem exprStr_number (v : PyVal) : exprStr (Expr.number v) = PyVal.toStr v := by
  simp [exprStr]

theorem exprStr_symbol (v : PyVal) : exprStr (Expr.symbol v) = PyVal.toStr v := by
  simp [exprStr]

theorem exprStr_exAddXY : exprStr exAddXY = "x + y" := by
  rw [exAddXY, exprStr_op_ne_mul _ _ (by decide)]
  simp only [List.map_cons, List.map_nil]
  rw [show renderOperand (OpKind.prec OpKind.add) exSymX = exprStr exSymX by
        simp [renderOperand, exSymX, Expr.isOperator],
      show renderOperand (OpKind.prec OpKind.add) exSymY = exprStr exSymY by
        simp [renderOperand, exSymY, Expr.isOperator]]
  rw [exSymX, exSymY, exprStr_symbol, exprStr_symbol]
  simp [pyJoin, OpKind.sym, PyVal.toStr]

theorem exprStr_exC1 : exprStr exC1 = "2 * x + y" := by
  rw [exC1, exprStr_mul]
  have hf1 : [exAddXY, Expr.number (PyVal.int 2)].filter Expr.isNum
      = [Expr.number (PyVal.int 2)] := by
    simp [List.filter_cons, exAddXY, Expr.isNum]
  have hf2 : [exAddXY, Expr.number (PyVal.int 2)].filter (fun o => ! Expr.isNum o)
      = [exAddXY] := by
    simp [List.filter_cons, exAddXY, Expr.isNum]
  rw [hf1, hf2]
  simp only [List.cons_append, List.nil_append, List.map_cons, List.map_nil]
  rw [exprStr_number, exprStr_exAddXY]
  simp only [pyJoin, PyVal.toStr]
  decide

/-- Claim C1, counterexample: the renderer does not produce
`"(x + y) * 2"` on `Mul(Add(Symbol("x"), Symbol("y")), Number(2))`; the
`Mul` override renders without parentheses and constants first, giving
`"2 * x + y"`. -/
theorem C1_render_counterexample : exprStr exC1 ≠ "(x + y) * 2" := by
  rw [exprStr_exC1]
  decide

/-- Claim C1 as amended: for every Operator kind except Mul the renderer
parenthesizes an operand exactly when the operand is an Operator of
strictly smaller precedence (and the parenthesized form differs from the
bare one, so the equivalence is genuine); Mul uses its own rendering,
which lists Number operands first and never parenthesizes, so the
example renders as `"2 * x + y"`. -/
theorem C1_render_amended :
    (∀ (k : OpKind) (ops : List Expr), k ≠ OpKind.mul →
        exprStr (Expr.op k ops)
          = pyJoin (" " ++ OpKind.sym k ++ " ") (ops.map (renderOperand (OpKind.prec k)))) ∧
    (∀ (p : Nat) (o : Expr),
        (Expr.isOperator o = true ∧ Expr.opPrec o < p)
          ↔ renderOperand p o = "(" ++ exprStr o ++ ")") ∧
    exprStr exC1 = "2 * x + y" := by
  refine ⟨fun k ops hk => exprStr_op_ne_mul k ops hk, ?_, exprStr_exC1⟩
  intro p o
  constructor
  · intro h
    rw [renderOperand, if_pos h]
  · intro h
    by_cases hc : Expr.isOperator o = true ∧ Expr.opPrec o < p
    · exact hc
    · exfalso
      rw [renderOperand, if_neg hc] at h
      have hlen := congrArg String.length h
      rw [String.length_append, String.length_append] at hlen
      have h1 : ("(" : String).length = 1 := rfl
      have h2 : (")" : String).length = 1 := rfl
      omega

/-- Witness for C1 as amended: the general non-Mul clause instantiated
at `Div(Add(Symbol("x"), Symbol("y")), Number(2))`. -/
theorem C1_render_amended_witness :
    exprStr (Expr.op OpKind.div [exAddXY, Expr.number (PyVal.int 2)])
      = pyJoin (" " ++ OpKind.sym OpKind.div ++ " ")
          ([exAddXY, Expr.number (PyVal.int 2)].map (renderOperand (OpKind.prec OpKind.div))) :=
  C1_render_amended.1 OpKind.div [exAddXY, Expr.number (PyVal.int 2)] (by decide)

/-- Claim C9: an operand whose precedence equals the precedence of its
parent Operator is rendered without parentheses, and consequently the
left-nested and right-nested Sub trees over any three operands render to
the same text. -/
theorem C9_equal_precedence_renders_flat :
    (∀ (k : OpKind) (o : Expr), Expr.isOperator o = true → Expr.opPrec o = OpKind.prec k →
        renderOperand (OpKind.prec k) o = exprStr o) ∧
    (∀ a b c : Expr,
        exprStr (Expr.op OpKind.sub [Expr.op OpKind.sub [a, b], c])
          = exprStr (Expr.op OpKind.sub [a, Expr.op OpKind.sub [b, c]])) := by
  constructor
  · intro k o h1 h2
    rw [renderOperand, if_neg]
    rintro ⟨-, hlt⟩
    rw [h2] at hlt
    exact lt_irrefl _ hlt
  · intro a b c
    have hsub : ∀ x y : Expr,
        renderOperand (OpKind.prec OpKind.sub) (Expr.op OpKind.sub [x, y])
          = exprStr (Expr.op OpKind.sub [x, y]) := by
      intro x y
      rw [renderOperand, if_neg]
      rintro ⟨-, hlt⟩
      simp [Expr.opPrec] at hlt
    rw [exprStr_op_ne_mul _ _ (by decide), exprStr_op_ne_mul _ _ (by decide)]
    simp only [List.map_cons, List.map_nil]
    rw [hsub a b, hsub b c]
    rw [exprStr_op_ne_mul _ _ (by decide), exprStr_op_ne_mul _ _ (by decide)]
    simp only [List.map_cons, List.map_nil]
    simp only [pyJoin]
    simp [String.append_assoc]

/-- Witness for C9: the equal-precedence clause instantiated at a Sub
operand under a Sub parent. -/
theorem C9_equal_precedence_renders_flat_witness :
    renderOperand (OpKind.prec OpKind.sub) (Expr.op OpKind.sub [exSymX, exSymY])
      = exprStr (Expr.op OpKind.sub [exSymX, exSymY]) :=
  C9_equal_precedence_renders_flat.1 OpKind.sub (Expr.op OpKind.sub [exSymX, exSymY])
    (by decide) (by decide)

/-- Claim C4: `postorder` applies the visitor exactly once per distinct
node (node identity, that is node identifier, is the memo key) reachable
from the root, and returns the root value of the reference bottom-up
evaluation.  On `shared = Symbol("x"); e = Add(shared, shared)` the
visitor runs exactly twice (invocation list `[0, 1]`), while on an `Add`
of two structurally identical but distinct Symbol instances it runs three
times (invocation list `[0, 1, 2]`), each instance evaluated separately. -/
theorem C4_postorder_identity_memoization :
    (∀ (α : Type) (g : Nat → List Nat) (fn : Nat → List α → α) (root : Nat),
        (∀ n, ∀ c ∈ g n, c < n) →
        ∃ fuel r calls,
          postvisitor g fn fuel root = some (r, calls) ∧
          calls.Nodup ∧
          (∀ m, m ∈ calls ↔ Reach g root m) ∧
          evalB g fn (root + 1) root = some r) ∧
    postvisitor gShared cntFn 8 1 = some (3, [0, 1]) ∧
    postvisitor gTwin cntFn 8 2 = some (3, [0, 1, 2]) := by
  refine ⟨fun α g fn root hwf => postvisitor_sound g fn root hwf, ?_, ?_⟩
  · rfl
  · rfl

/-- Witness for C4: the general clause instantiated at the
shared-substructure graph. -/
theorem C4_postorder_identity_memoization_witness :
    ∃ fuel r calls,
      postvisitor gShared cntFn fuel 1 = some (r, calls) ∧
      calls.Nodup ∧
      (∀ m, m ∈ calls ↔ Reach gShared 1 m) ∧
      evalB gShared cntFn (1 + 1) 1 = some r :=
  C4_postorder_identity_memoization.1 Nat gShared cntFn 1 (by
    intro n c hc
    simp only [gShared] at hc
    by_cases h : n = 1
    · rw [if_pos h] at hc
      have hc0 : c = 0 := by simpa using hc
      omega
    · rw [if_neg h] at hc
      simp at hc)

/-- Claim C2 (code bug evidence): differentiating a node kind with no
registered rule (Sub, a bare Operator, a bare Terminal) reaches the
default implementation, whose message formatting evaluates the malformed
class attribute `_name_`; that lookup raises AttributeError naming the
class and the missing attribute, instead of the intended
NotImplementedError message naming the kind. -/
theorem C2_default_dispatch_attribute_error :
    differentiate (Expr.op OpKind.sub [exSymX, exSymY]) "x"
      = .error (.attributeError ("Sub") ("_name_")) ∧
    differentiate (Expr.op OpKind.opBase [exSymX]) "x"
      = .error (.attributeError ("Operator") ("_name_")) ∧
    differentiate (Expr.terminal (PyVal.int 5)) "x"
      = .error (.attributeError ("Terminal") ("_name_")) := by
  refine ⟨?_, ?_, ?_⟩ <;> simp [differentiate, Expr.kindName]

theorem differentiate_exPowX3 : differentiate exPowX3 "x" = .ok exC3Actual := by
  simp [differentiate, exPowX3, exC3Actual, exSymX, Expr.isNum]

/-- Claim C3, counterexample: the power rule does not return the
structurally simplified `Mul(Mul(Number(3), Pow(Symbol("x"), Number(2))),
Number(1))`; the exponent it builds is `Sub(Number(3), Number(1))`. -/
theorem C3_power_rule_counterexample :
    differentiate exPowX3 "x" ≠ .ok exC3Claimed := by
  rw [differentiate_exPowX3]
  intro h
  simp [exC3Actual, exC3Claimed] at h

/-- Claim C3 as amended: `differentiate(Pow(Symbol("x"), Number(3)),
var="x")` returns `Mul(Mul(Number(3), Pow(Symbol("x"), Sub(Number(3),
Number(1)))), Number(1))`, with the exponent left as the unsimplified
difference. -/
theorem C3_power_rule_amended : differentiate exPowX3 "x" = .ok exC3Actual :=
  differentiate_exPowX3

/-- Claim C5: the Mul differentiation rule destructures exactly two
operands; on a binary `Mul(f, g)` it returns
`Add(Mul(d(f), g), Mul(d(g), f))` in exactly that operand order, and on
any other operand count it fails with the tuple-unpacking ValueError. -/
theorem C5_mul_rule_binary :
    (∀ (f g : Expr) (v : String) (df dg : Expr),
        differentiate f v = .ok df → differentiate g v = .ok dg →
        differentiate (Expr.op OpKind.mul [f, g]) v
          = .ok (Expr.op OpKind.add
              [Expr.op OpKind.mul [df, g], Expr.op OpKind.mul [dg, f]])) ∧
    (∀ (ops : List Expr) (v : String), ops.length ≠ 2 →
        ∃ m, differentiate (Expr.op OpKind.mul ops) v = .error (PyErr.valueError m)) := by
  constructor
  · intro f g v df dg hf hg
    simp [differentiate, hf, hg]
  · intro ops v hlen
    cases ops with
    | nil => exact ⟨unpackErr 0, by simp [differentiate]⟩
    | cons f t =>
        cases t with
        | nil => exact ⟨unpackErr 1, by simp [differentiate]⟩
        | cons g t2 =>
            cases t2 with
            | nil => exact absurd rfl hlen
            | cons h t3 =>
                exact ⟨unpackErr (f :: g :: h :: t3).length, by simp [differentiate]⟩

/-- Witness for C5: the product rule at `Mul(Symbol("x"), Symbol("y"))`
with respect to `x`, and the arity failure at a one-operand Mul. -/
theorem C5_mul_rule_binary_witness :
    differentiate (Expr.op OpKind.mul [exSymX, exSymY]) "x"
      = .ok (Expr.op OpKind.add
          [Expr.op OpKind.mul [Expr.number (PyVal.int 1), exSymY],
           Expr.op OpKind.mul [Expr.number (PyVal.int 0), exSymX]]) ∧
    ∃ m, differentiate (Expr.op OpKind.mul [exSymX]) "x" = .error (PyErr.valueError m) :=
  ⟨C5_mul_rule_binary.1 exSymX exSymY "x" (Expr.number (PyVal.int 1)) (Expr.number (PyVal.int 0))
      (by simp [differentiate, exSymX]) (by simp [differentiate, exSymY]),
   C5_mul_rule_binary.2 [exSymX] "x" (by simp)⟩

/-- Claim C6: combining an Expression with a raw numeric literal wraps
the literal in a Number, and the reflected forms of the non-commutative
operators preserve (literal, expression) order: `n - e` builds
`Sub(Number(n), e)`, `n / e` builds `Div(Number(n), e)`, `n ** e` builds
`Pow(Number(n), e)`; the direct forms place the wrapped literal second. -/
theorem C6_literal_wrapping_reflected_order :
    ∀ (e : Expr) (n : Int),
      dunderRsub e (Operand.lit (PyVal.int n))
        = .ok (Expr.op OpKind.sub [Expr.number (PyVal.int n), e]) ∧
      dunderRdiv e (Operand.lit (PyVal.int n))
        = .ok (Expr.op OpKind.div [Expr.number (PyVal.int n), e]) ∧
      dunderRpow e (Operand.lit (PyVal.int n))
        = .ok (Expr.op OpKind.pow [Expr.number (PyVal.int n), e]) ∧
      dunderAdd e (Operand.lit (PyVal.int n))
        = .ok (Expr.op OpKind.add [e, Expr.number (PyVal.int n)]) ∧
      dunderSub e (Operand.lit (PyVal.int n))
        = .ok (Expr.op OpKind.sub [e, Expr.number (PyVal.int n)]) ∧
      dunderMul e (Operand.lit (PyVal.int n))
        = .ok (Expr.op OpKind.mul [e, Expr.number (PyVal.int n)]) ∧
      dunderDiv e (Operand.lit (PyVal.int n))
        = .ok (Expr.op OpKind.div [e, Expr.number (PyVal.int n)]) ∧
      dunderPow e (Operand.lit (PyVal.int n))
        = .ok (Expr.op OpKind.pow [e, Expr.number (PyVal.int n)]) ∧
      dunderRadd e (Operand.lit (PyVal.int n))
        = .ok (Expr.op OpKind.add [e, Expr.number (PyVal.int n)]) ∧
      dunderRmul e (Operand.lit (PyVal.int n))
        = .ok (Expr.op OpKind.mul [e, Expr.number (PyVal.int n)]) := by
  intro e n
  refine ⟨?_, ?_, ?_, ?_, ?_, ?_, ?_, ?_, ?_, ?_⟩ <;>
    simp [dunderRsub, dunderRdiv, dunderRpow, dunderAdd, dunderSub, dunderMul,
      dunderDiv, dunderPow, dunderRadd, dunderRmul, wrapOperand, mkNumber,
      mkOperator, PyVal.isNumeric]

/-- Claim C7: construction validates eagerly.  An Operator with zero
operands, a Number with a non-numeric value and a Symbol with a
non-textual value each raise a ValueError; valid arguments construct
successfully. -/
theorem C7_eager_construction_validation :
    (∀ k : OpKind, mkOperator k []
        = .error (PyErr.valueError ("Operators must have at least one operand"))) ∧
    (∀ s : String, mkNumber (PyVal.str s)
        = .error (PyErr.valueError ("Number value must be numeric"))) ∧
    (∀ n : Int, mkSymbol (PyVal.int n)
        = .error (PyErr.valueError ("Symbol value must be a string"))) ∧
    (∀ (k : OpKind) (ops : List Expr), 1 ≤ ops.length →
        mkOperator k ops = .ok (Expr.op k ops)) ∧
    (∀ n : Int, mkNumber (PyVal.int n) = .ok (Expr.number (PyVal.int n))) ∧
    (∀ s : String, mkSymbol (PyVal.str s) = .ok (Expr.symbol (PyVal.str s))) := by
  refine ⟨?_, ?_, ?_, ?_, ?_, ?_⟩
  · intro k
    simp [mkOperator]
  · intro s
    simp [mkNumber, PyVal.isNumeric]
  · intro n
    simp [mkSymbol, PyVal.isText]
  · intro k ops h
    rw [mkOperator, if_neg (by omega)]
  · intro n
    simp [mkNumber, PyVal.isNumeric]
  · intro s
    simp [mkSymbol, PyVal.isText]

/-- Witness for C7: a valid one-operand construction succeeds. -/
theorem C7_eager_construction_validation_witness :
    mkOperator OpKind.add [exSymX] = .ok (Expr.op OpKind.add [exSymX]) :=
  C7_eager_construction_validation.2.2.2.1 OpKind.add [exSymX] (by simp)

/-- Claim C8: differentiating a binary Pow whose exponent operand is not
a Number fails, for every variable name, with the NotImplementedError
stating that variable exponents are not supported. -/
theorem C8_pow_variable_exponent :
    ∀ (base expo : Expr) (v : String), Expr.isNum expo = false →
      differentiate (Expr.op OpKind.pow [base, expo]) v
        = .error (PyErr.notImplemented ("Variable exponents are not yet supported.")) := by
  intro base expo v h
  simp [differentiate, h]

/-- Witness for C8: `Pow(Symbol("x"), Symbol("n"))` with respect to `x`. -/
theorem C8_pow_variable_exponent_witness :
    differentiate (Expr.op OpKind.pow [exSymX, Expr.symbol (PyVal.str ("n"))]) "x"
      = .error (PyErr.notImplemented ("Variable exponents are not yet supported.")) :=
  C8_pow_variable_exponent exSymX (Expr.symbol (PyVal.str ("n"))) "x" (by decide)

/-- Claim C10: combining an Expression with a value that is neither an
Expression nor numeric (a string, in the modelled value universe) makes
every infix combinator and every reflected form raise the ValueError of
the Number constructor, not a TypeError and not a NotImplemented result. -/
theorem C10_nonnumeric_literal_raises_valueerror :
    ∀ (e : Expr) (s : String),
      dunderAdd e (Operand.lit (PyVal.str s))
        = .error (PyErr.valueError ("Number value must be numeric")) ∧
      dunderSub e (Operand.lit (PyVal.str s))
        = .error (PyErr.valueError ("Number value must be numeric")) ∧
      dunderMul e (Operand.lit (PyVal.str s))
        = .error (PyErr.valueError ("Number value must be numeric")) ∧
      dunderDiv e (Operand.lit (PyVal.str s))
        = .error (PyErr.valueError ("Number value must be numeric")) ∧
      dunderPow e (Operand.lit (PyVal.str s))
        = .error (PyErr.valueError ("Number value must be numeric")) ∧
      dunderRadd e (Operand.lit (PyVal.str s))
        = .error (PyErr.valueError ("Number value must be numeric")) ∧
      dunderRsub e (Operand.lit (PyVal.str s))
        = .error (PyErr.valueError ("Number value must be numeric")) ∧
      dunderRmul e (Operand.lit (PyVal.str s))
        = .error (PyErr.valueError ("Number value must be numeric")) ∧
      dunderRdiv e (Operand.lit (PyVal.str s))
        = .error (PyErr.valueError ("Number value must be numeric")) ∧
      dunderRpow e (Operand.lit (PyVal.str s))
        = .error (PyErr.valueError ("Number value must be numeric")) := by
  intro e s
  refine ⟨?_, ?_, ?_, ?_, ?_, ?_, ?_, ?_, ?_, ?_⟩ <;>
    simp [dunderAdd, dunderSub, dunderMul, dunderDiv, dunderPow, dunderRadd,
      dunderRsub, dunderRmul, dunderRdiv, dunderRpow, wrapOperand, mkNumber,
      PyVal.isNumeric]
